import Mathlib

/-!
Verification of the CDDIS high-rate GNSS downloader
(`src/cddis_downloader/downloader.py`, `src/cddis_downloader/utils.py`).

The development shallowly embeds the Python source: pure helpers become Lean
functions over `List Char` / `String`; the FTP client's stateful operations are
embedded as functions over an explicit session state together with oracles that
script the outcomes of the remote primitives (connection steps, directory
listings, binary retrievals), returning the new state and a trace of observable
actions; the local filesystem is a set of paths, modelled as a `List String`.
All definitions are executable so that concrete scenarios evaluate by `decide`
or `rfl`.
-/

/-! ## Character and string utilities (Python semantics) -/

/-- Characters stripped by Python's `str.strip()` / ignored by `int()` around a
numeral (space, tab, newline, carriage return, vertical tab, form feed). -/
def pyIsSpace (c : Char) : Bool :=
  c = ' ' || c = '\t' || c = '\n' || c = '\r' || c.toNat = 11 || c.toNat = 12

/-- Strip leading and trailing whitespace, as Python's `str.strip()`. -/
def pyStrip (s : List Char) : List Char :=
  ((s.dropWhile pyIsSpace).reverse.dropWhile pyIsSpace).reverse

/-- Numeric value of a list of decimal digit characters. -/
def digitsVal (ds : List Char) : Nat :=
  ds.foldl (fun a c => a * 10 + (c.toNat - 48)) 0

/-- Embedding of Python's `int(s)` for decimal strings: optional surrounding
whitespace, optional single sign, then a nonempty run of digits; anything else
raises `ValueError`, modelled as `none`. -/
def pyInt? (s : String) : Option Int :=
  let t := pyStrip s.data
  let p : Bool × List Char :=
    match t with
    | '-' :: rest => (true, rest)
    | '+' :: rest => (false, rest)
    | _ => (false, t)
  if p.2 ≠ [] ∧ p.2.all Char.isDigit then
    some (if p.1 then -(digitsVal p.2 : Int) else (digitsVal p.2 : Int))
  else none

/-- Split a character list at every occurrence of `c`, as Python's
`str.split(c)`: always returns at least one (possibly empty) piece. -/
def splitOnChar (c : Char) : List Char → List (List Char)
  | [] => [[]]
  | x :: xs =>
    let r := splitOnChar c xs
    if x = c then [] :: r
    else
      match r with
      | [] => [[x]]
      | y :: ys => (x :: y) :: ys

/-- Embedding of Python's `value.split('-')`. -/
def pySplitDash (s : String) : List String :=
  (splitOnChar '-' s.data).map (fun l => ⟨l⟩)

/-- Embedding of Python's `s.replace(pat, rep)` (replace every non-overlapping
occurrence, left to right), fueled to stay structurally recursive. -/
def pyReplaceAux (pat rep : List Char) : Nat → List Char → List Char
  | 0, s => s
  | _ + 1, [] => []
  | fuel + 1, c :: rest =>
    if pat ≠ [] ∧ pat.isPrefixOf (c :: rest) then
      rep ++ pyReplaceAux pat rep fuel (List.drop pat.length (c :: rest))
    else c :: pyReplaceAux pat rep fuel rest

/-- Embedding of Python's `s.replace(pat, rep)`. -/
def pyReplace (s pat rep : String) : String :=
  ⟨pyReplaceAux pat.data rep.data s.data.length s.data⟩

/-- Decimal digit character for `n < 10`. -/
def digitChar (n : Nat) : Char := Char.ofNat (48 + n)

/-- Decimal digits of a natural number (fueled). -/
def natToDigitsAux : Nat → Nat → List Char
  | 0, _ => []
  | fuel + 1, n =>
    if n < 10 then [digitChar n]
    else natToDigitsAux fuel (n / 10) ++ [digitChar (n % 10)]

/-- Embedding of Python's zero-padded formatting `f"{i:0wd}"`: the total field
width `w` counts the sign character. -/
def pyFormatD (w : Nat) (i : Int) : String :=
  let ds := natToDigitsAux (i.natAbs + 1) i.natAbs
  if i < 0 then ⟨'-' :: (List.replicate (w - 1 - ds.length) '0' ++ ds)⟩
  else ⟨List.replicate (w - ds.length) '0' ++ ds⟩

/-- The integers `s, s+1, ..., e` in ascending order (empty when `e < s`). -/
def intsFromTo (s e : Int) : List Int :=
  (List.range (e + 1 - s).toNat).map (fun j => s + Int.ofNat j)

/-! ## Range parser (`validate_range`, lines 209-247) -/

/-- Parsing stage of `validate_range`: the `int` conversions of
`value.split('-')` (two pieces required, as the Python tuple unpacking demands)
or of the single value; `none` models the caught `ValueError`. -/
def parsedRange (value : String) : Option (Int × Int) :=
  if '-' ∈ value.data then
    match pySplitDash value with
    | [a, b] =>
      match pyInt? a, pyInt? b with
      | some s, some e => some (s, e)
      | _, _ => none
    | _ => none
  else
    match pyInt? value with
    | some n => some (n, n)
    | none => none

/-- Embedding of `validate_range(value, min_val, max_val, name)`.  In the
source the `start > end` test is made only in the branch where `value`
contains `'-'`; in the single-value branch `start = end`, so testing it
unconditionally is equivalent. -/
def validate_range (value : String) (min_val max_val : Int) (name : String) :
    List String :=
  if value = "" then []
  else
    match parsedRange value with
    | none => []
    | some (s, e) =>
      if s > e then []
      else if s < min_val ∨ e > max_val then []
      else if name = "DOY" then (intsFromTo s e).map (pyFormatD 3)
      else (intsFromTo s e).map (pyFormatD 2)

/-- Embedding of `validate_hour`. -/
def validate_hour (hour : String) : List String :=
  validate_range hour 0 23 "hour"

/-- Embedding of `validate_doy`. -/
def validate_doy (doy : String) : List String :=
  validate_range doy 1 366 "DOY"

/-- The tokens of the range input in the sense of the specification: the pieces
around the separator when one is present, otherwise the whole input. -/
def tokensOf (value : String) : List String :=
  if '-' ∈ value.data then pySplitDash value else [value]


/-! ## Retrieval session (`CDDISFTPClient`) -/

/-- Session state: the `self.ftp` field, `none` when disconnected, otherwise
the identifier of the held connection handle. -/
structure Session where
  ftp : Option Nat
deriving DecidableEq

/-- Observable protocol-level actions of the session client, tagged with the
handle they act on. -/
inductive SAct
  | quit (h : Nat)
  | closeH (h : Nat)
  | openH (h : Nat)
  | connTo (h : Nat)
  | loginA (h : Nat)
  | protP (h : Nat)
  | pasv (h : Nat)
deriving DecidableEq

/-- Scripted outcome of one `connect()` call: the `FTP_TLS` constructor raises
(`failCtor`, no handle opened), or it opens handle `h` and the `k`-th of the
subsequent steps (`connect`/`login`/`prot_p`/`set_pasv`) raises (`failAt h k`),
or everything succeeds (`okConn h`). -/
inductive ConnectOutcome
  | failCtor
  | failAt (h k : Nat)
  | okConn (h : Nat)
deriving DecidableEq

/-- The four handle-setup steps performed after the constructor. -/
def connSteps (h : Nat) : List SAct :=
  [SAct.connTo h, SAct.loginA h, SAct.protP h, SAct.pasv h]

/-- Embedding of `CDDISFTPClient.connect` (lines 17-36).  A previously held
handle is first politely terminated (errors swallowed) and dropped.  On any
failure the `except` branch sets `self.ftp = None` and returns `False`; note
that this drops a partially set-up handle without issuing any close on it. -/
def connectOp (out : ConnectOutcome) (s : Session) : Session × Bool × List SAct :=
  let preActs : List SAct :=
    match s.ftp with
    | some h => [SAct.quit h]
    | none => []
  match out with
  | .failCtor => (⟨none⟩, false, preActs)
  | .failAt h k => (⟨none⟩, false, preActs ++ SAct.openH h :: (connSteps h).take k)
  | .okConn h => (⟨some h⟩, true, preActs ++ SAct.openH h :: connSteps h)

/-- A trace explicitly closes handle `h` when it contains a polite or forced
termination of `h`. -/
def closesH (tr : List SAct) (h : Nat) : Prop :=
  SAct.quit h ∈ tr ∨ SAct.closeH h ∈ tr

/-- Embedding of `CDDISFTPClient.close` (lines 122-130): `quitOk` scripts
whether `self.ftp.quit()` raises (the error is swallowed); the `finally`
branch unconditionally clears `self.ftp`.  The `Except` result witnesses that
the method itself never raises. -/
def closeOp (quitOk : Bool) (s : Session) : Except String (Session × List SAct) :=
  match s.ftp with
  | none => Except.ok (s, [])
  | some h =>
    match (if quitOk then Except.ok () else Except.error "quit failed" : Except String Unit) with
    | Except.ok _ => Except.ok (⟨none⟩, [SAct.quit h])
    | Except.error _ => Except.ok (⟨none⟩, [SAct.quit h])

/-! ## Bounded-retry listing and download (lines 53-120)

The remote body of each attempt is summarized by an oracle indexed by the
number of attempts made so far; `reconnect()` is summarized by an oracle
indexed by the number of reconnect calls made by the operation, returning the
fresh handle on success. -/

/-- Outcome of one listing attempt (`cwd` + `LIST`). -/
inductive LAttempt
  | fail (msg : String)
  | ok (files : List String)
deriving DecidableEq

/-- Outcome of one download attempt: the `cwd` raises before the local file is
opened, or the transfer raises after the local file was created, or the
transfer completes. -/
inductive DAttempt
  | failBeforeOpen
  | failAfterOpen
  | okD
deriving DecidableEq

/-- Code-point lexicographic comparison of strings, as Python's `<`. -/
def chLt : List Char → List Char → Bool
  | [], [] => false
  | [], _ :: _ => true
  | _ :: _, [] => false
  | a :: as, b :: bs =>
    if a.toNat < b.toNat then true
    else if b.toNat < a.toNat then false
    else chLt as bs

/-- Insert into an ascending list (code-point order). -/
def insertSorted (x : String) : List String → List String
  | [] => [x]
  | y :: ys => if chLt y.data x.data then y :: insertSorted x ys else x :: y :: ys

/-- Embedding of Python's `sorted` on strings. -/
def pySorted (l : List String) : List String := l.foldr insertSorted []

/-- Suffix test, as Python's `str.endswith`. -/
def strEndsWith (s suf : String) : Bool := suf.data.isSuffixOf s.data

/-- Prefix test, as Python's `str.startswith`. -/
def strStartsWith (s p : String) : Bool := p.data.isPrefixOf s.data

/-- The pure tail of a successful listing attempt: keep `.crx.gz` names,
apply the optional station prefix filter, sort ascending (lines 70-74). -/
def filterCrx (files : List String) (filt : Option String) : List String :=
  let crx := files.filter (fun f => strEndsWith f ".crx.gz")
  match filt with
  | some p => pySorted (crx.filter (fun f => strStartsWith f p))
  | none => pySorted crx

/-- The `while retry_count < max_retries` loop of `list_crx_files`
(lines 59-86), returning the result together with the number of remote
attempts made.  Arguments: attempt oracle, reconnect oracle, station filter,
then `retry_count`, attempts made so far, reconnect calls made so far, the
`self.ftp` field, and fuel (the loop makes at most 3 iterations). -/
def lcfLoop (attempt : Nat → LAttempt) (recon : Nat → Option Nat)
    (filt : Option String) :
    Nat → Nat → Nat → Option Nat → Nat → List String × Nat
  | _, made, _, _, 0 => ([], made)
  | retryCount, made, rc, ftp, fuel + 1 =>
    if 3 ≤ retryCount then ([], made)
    else
      let step : Option (Nat × Nat) :=
        match ftp with
        | some h => some (h, rc)
        | none =>
          match recon rc with
          | none => none
          | some h => some (h, rc + 1)
      match step with
      | none => ([], made)
      | some (_h, rcNow) =>
        match attempt made with
        | LAttempt.ok files => (filterCrx files filt, made + 1)
        | LAttempt.fail _ =>
          if retryCount + 1 < 3 then
            match recon rcNow with
            | none => ([], made + 1)
            | some hNew =>
              lcfLoop attempt recon filt (retryCount + 1) (made + 1) (rcNow + 1)
                (some hNew) fuel
          else ([], made + 1)

/-- Embedding of `CDDISFTPClient.list_crx_files` (lines 53-86). -/
def list_crx_files (s : Session) (attempt : Nat → LAttempt)
    (recon : Nat → Option Nat) (filt : Option String) : List String × Nat :=
  lcfLoop attempt recon filt 0 0 0 s.ftp 3

/-- The `while retry_count < max_retries` loop of `download_file`
(lines 94-120).  The `Bool` state argument tracks whether a file currently
exists at `local_path`; on every attempt failure the `except` branch removes
the file when present (lines 109-110), so the flag drops to `false`.  Returns
(success, file-exists-at-destination, attempts made). -/
def dlLoop (attempt : Nat → DAttempt) (recon : Nat → Option Nat) :
    Nat → Nat → Nat → Option Nat → Bool → Nat → Bool × Bool × Nat
  | _, made, _, _, fe, 0 => (false, fe, made)
  | retryCount, made, rc, ftp, fe, fuel + 1 =>
    if 3 ≤ retryCount then (false, fe, made)
    else
      let step : Option (Nat × Nat) :=
        match ftp with
        | some h => some (h, rc)
        | none =>
          match recon rc with
          | none => none
          | some h => some (h, rc + 1)
      match step with
      | none => (false, fe, made)
      | some (_h, rcNow) =>
        match attempt made with
        | DAttempt.okD => (true, true, made + 1)
        | _ =>
          if retryCount + 1 < 3 then
            match recon rcNow with
            | none => (false, false, made + 1)
            | some hNew =>
              dlLoop attempt recon (retryCount + 1) (made + 1) (rcNow + 1)
                (some hNew) false fuel
          else (false, false, made + 1)

/-- Embedding of `CDDISFTPClient.download_file` (lines 88-120); `preExists`
says whether a file is already present at `local_path` before the call. -/
def download_file (s : Session) (attempt : Nat → DAttempt)
    (recon : Nat → Option Nat) (preExists : Bool) : Bool × Bool × Nat :=
  dlLoop attempt recon 0 0 0 s.ftp preExists 3

/-! ## Local materializer (`extract_and_convert`, lines 132-176)

The local filesystem is the set of existing paths, as a `List String`. -/

/-- Add a path to the filesystem. -/
def insertP (p : String) (fs : List String) : List String :=
  if p ∈ fs then fs else p :: fs

/-- Remove a path from the filesystem. -/
def removeP (p : String) (fs : List String) : List String :=
  fs.filter (fun q => !(q = p : Bool))

/-- Reversed final path component of a reversed name: drop up to and including
the first `'.'` found (the last `'.'` of the name); `none` when the name has no
suffix in the `pathlib` sense (no dot, or only a leading dot). -/
def dropExtRev : List Char → Option (List Char)
  | [] => none
  | '.' :: rest => if rest = [] then none else some rest
  | _ :: rest => dropExtRev rest

/-- Embedding of `pathlib.Path.with_suffix('')`: strip the last extension of
the final path component. -/
def withSuffixEmpty (p : String) : String :=
  let r := p.data.reverse
  let nameRev := r.takeWhile (fun c => !(c = '/' : Bool))
  let dirRev := r.drop nameRev.length
  match dropExtRev nameRev with
  | some stemRev => ⟨dirRev.reverse ++ stemRev.reverse⟩
  | none => p

/-- Embedding of `pathlib.Path.with_suffix(suf)` for a nonempty `suf`. -/
def withSuffix (p suf : String) : String :=
  ⟨(withSuffixEmpty p).data ++ suf.data⟩

/-- Scripted outcome of the decompression step: `gzip.open` raises before the
output file is created, or the copy raises after the output file was created
(leaving a partial output), or the decompression completes. -/
inductive DecompOutcome
  | failAtOpen
  | failMid
  | okD
deriving DecidableEq

/-- Scripted outcome of the conversion step: the converter executable is
absent, or it exits nonzero (`CalledProcessError`), or it succeeds. -/
inductive ConvOutcome
  | missing
  | failC
  | okC
deriving DecidableEq

/-- Embedding of `CDDISFTPClient.extract_and_convert` (lines 132-176) as a
filesystem transformer on the set of existing paths.  The `.gz` input is
unlinked only after the decompression block completed; a decompression error
is caught at line 175 with no cleanup of a partially written output; on a
successful conversion the `.crx` intermediate is unlinked (line 170), while a
conversion failure or a missing converter retains it. -/
def extract_and_convert (dOut : DecompOutcome) (cOut : ConvOutcome)
    (convert_to_rnx : Bool) (file_path : String) (fs : List String) :
    List String :=
  let crx_path := withSuffixEmpty file_path
  match dOut with
  | .failAtOpen => fs
  | .failMid => insertP crx_path fs
  | .okD =>
    let fs1 := removeP file_path (insertP crx_path fs)
    if convert_to_rnx then
      match cOut with
      | .missing => fs1
      | .failC => fs1
      | .okC => removeP crx_path (insertP (withSuffix crx_path ".rnx") fs1)
    else fs1

/-! ## Orchestrator (`main`, lines 249-375) -/

/-- The validated retrieval request collected by the prompts. -/
structure Request where
  station : String
  year : String
  doyList : List String
  subfolder : String
  hourList : List String
  extract_files : Bool
  convert_to_rnx : Bool

/-- Scripted environment for one iteration of the per-DOY `while` loop:
whether `client.connect()` succeeds, the outcome of the remote `LIST` behind
`list_hour_subfolders` (an `error` models the caught exception of lines
49-51), the per-hour result of `list_crx_files` (which already degrades to
`[]` on exhausted retries), whether processing an hour hits an unexpected
exception (lines 353-356), the per-(hour, file) download outcome, and the
per-(hour, file) materialization outcomes. -/
structure DoyEnv where
  connectOk : Bool
  hourListing : Except String (List String)
  fileListing : String → List String
  hourError : String → Bool
  download : String → String → Bool
  decompOut : String → String → DecompOutcome
  convOut : String → String → ConvOutcome

/-- Embedding of `CDDISFTPClient.list_hour_subfolders` (lines 38-51): empty
session or a listing error yields `[]`; otherwise keep the two-character
all-digit names, sorted ascending. -/
def list_hour_subfolders (s : Session) (out : Except String (List String)) :
    List String :=
  match s.ftp with
  | none => []
  | some _ =>
    match out with
    | Except.error _ => []
    | Except.ok folders =>
      pySorted (folders.filter (fun f => f.data.all Char.isDigit && f.length = 2))

/-- Orchestrator-level observable actions. -/
inductive OAct
  | closeS
  | sleepO (n : Nat)
  | downloadA (hour file : String)
deriving DecidableEq

/-- Orchestrator progress state: the current DOY index and the local
filesystem. -/
structure OrchState where
  doyIndex : Nat
  fs : List String

/-- The hour subfolders available for the current DOY (the session is
connected at this point, handle identity irrelevant). -/
def availableOf (env : DoyEnv) : List String :=
  list_hour_subfolders ⟨some 0⟩ env.hourListing

/-- The effective hour set (lines 302-303): the requested hours when any were
given, else all available hours; intersected with the available hours. -/
def validHoursOf (req : Request) (env : DoyEnv) : List String :=
  (if req.hourList.isEmpty then availableOf env else req.hourList).filter
    (fun h => decide (h ∈ availableOf env))

/-- The local download directory for a DOY (line 312). -/
def downloadDirOf (req : Request) (doy : String) : String :=
  "downloads/" ++ (if req.station = "" then "ALLSTATIONS" else req.station)
    ++ "/" ++ req.year ++ "/" ++ doy

/-- The inner per-file loop (lines 332-351) for one hour: skip when the
`.rnx` counterpart or the `.crx` counterpart already exists locally
(`str.replace` semantics, lines 335 and 341); otherwise download, materialize
when extraction was requested, and on a download failure set `success = False`
and break.  Returns (success, filesystem, trace). -/
def processFiles (req : Request) (env : DoyEnv) (dd hour : String) :
    List String → List String → Bool × List String × List OAct
  | [], fs => (true, fs, [])
  | f :: rest, fs =>
    let local_path := dd ++ "/" ++ hour ++ "/" ++ f
    let rnx_path := pyReplace local_path ".crx.gz" ".rnx"
    if rnx_path ∈ fs then processFiles req env dd hour rest fs
    else
      let crx_path := pyReplace local_path ".gz" ""
      if crx_path ∈ fs then processFiles req env dd hour rest fs
      else if env.download hour f then
        let fs1 := insertP local_path fs
        let fs2 :=
          if req.extract_files then
            extract_and_convert (env.decompOut hour f) (env.convOut hour f)
              req.convert_to_rnx local_path fs1
          else fs1
        let r := processFiles req env dd hour rest fs2
        (r.1, r.2.1, OAct.downloadA hour f :: r.2.2)
      else (false, fs, [])

/-- The per-hour loop (lines 320-356): an empty file listing skips the hour;
a download failure or an unexpected error stops the loop with
`success = False`. -/
def processHours (req : Request) (env : DoyEnv) (dd : String) :
    List String → List String → Bool × List String × List OAct
  | [], fs => (true, fs, [])
  | h :: rest, fs =>
    if env.hourError h then (false, fs, [])
    else
      let files := env.fileListing h
      if files = [] then processHours req env dd rest fs
      else
        let r := processFiles req env dd h files fs
        if r.1 then
          let r2 := processHours req env dd rest r.2.1
          (r2.1, r2.2.1, r.2.2 ++ r2.2.2)
        else (false, r.2.1, r.2.2)

/-- The whole hour-processing pass for one DOY, from the effective hour set. -/
def passOf (req : Request) (env : DoyEnv) (doy : String) (fs : List String) :
    Bool × List String × List OAct :=
  processHours req env (downloadDirOf req doy) (validHoursOf req env) fs

/-- One iteration of the per-DOY `while` loop of `main` (lines 279-373).
Connect failure sleeps 30 and retries the same DOY (line 286-288, before the
`try`, hence no close).  An empty hour listing or an empty hour intersection
advances the DOY; leaving the `try` runs the `finally` close.  On a failed
pass the orchestrator closes, sleeps 30, and `continue`s — the `continue`
still runs the `finally` close (idempotent second close). -/
def doyStep (req : Request) (env : DoyEnv) (st : OrchState) :
    OrchState × List OAct :=
  if st.doyIndex < req.doyList.length then
    let doy := req.doyList.getD st.doyIndex ""
    if env.connectOk = false then (st, [OAct.sleepO 30])
    else if availableOf env = [] then
      ({ st with doyIndex := st.doyIndex + 1 }, [OAct.closeS])
    else if validHoursOf req env = [] then
      ({ st with doyIndex := st.doyIndex + 1 }, [OAct.closeS])
    else
      let r := passOf req env doy st.fs
      if r.1 then
        ({ doyIndex := st.doyIndex + 1, fs := r.2.1 }, r.2.2 ++ [OAct.closeS])
      else
        ({ st with fs := r.2.1 },
          r.2.2 ++ [OAct.closeS, OAct.sleepO 30, OAct.closeS])
  else (st, [])

/-- The `while doy_index < len(doy_list)` loop, fueled (the source loop is
unbounded; `fuel` bounds how many iterations we observe), with `iter` indexing
the per-iteration environments. -/
def runLoop (req : Request) (envs : Nat → DoyEnv) :
    Nat → Nat → OrchState → OrchState × List OAct
  | 0, _, st => (st, [])
  | fuel + 1, iter, st =>
    if st.doyIndex < req.doyList.length then
      let r := doyStep req (envs iter) st
      let r2 := runLoop req envs fuel (iter + 1) r.1
      (r2.1, r.2 ++ r2.2)
    else (st, [])

/-- Number of download actions in a trace. -/
def countDownloads (tr : List OAct) : Nat :=
  (tr.filter fun a =>
    match a with
    | OAct.downloadA _ _ => true
    | _ => false).length

/-! ## Concrete scenario data used by counterexamples and witnesses -/

/-- Concrete reconnect oracle for the C5 witness: every reconnect succeeds. -/
def wRecon : Nat → Option Nat := fun j => some j

/-- Concrete listing-attempt oracle: the first attempt fails, later ones
succeed. -/
def wAttL : Nat → LAttempt := fun i =>
  if i = 0 then LAttempt.fail "net"
  else LAttempt.ok ["B.crx.gz", "A.crx.gz", "x.txt"]

/-- Concrete download-attempt oracle: the first attempt fails after creating
the local file, later ones succeed. -/
def wAttD : Nat → DAttempt := fun i =>
  if i = 0 then DAttempt.failAfterOpen else DAttempt.okD

/-- A filename's already-materialized counterpart (converted `.rnx` or
decompressed `.crx`) exists in the local tree, in the sense of the skip checks
of lines 334-344. -/
def counterpartIn (fs : List String) (p : String) : Prop :=
  pyReplace p ".crx.gz" ".rnx" ∈ fs ∨ pyReplace p ".gz" "" ∈ fs

/-- Concrete request for the orchestrator scenarios: one DOY, one hour, no
extraction. -/
def c1req : Request :=
  { station := "S", year := "2024", doyList := ["001"], subfolder := "24d",
    hourList := ["00"], extract_files := false, convert_to_rnx := false }

/-- Concrete per-DOY environment: healthy network, hour `00` with one file. -/
def c1env : DoyEnv :=
  { connectOk := true, hourListing := Except.ok ["00"],
    fileListing := fun h => if h = "00" then ["A.crx.gz"] else [],
    hourError := fun _ => false, download := fun _ _ => true,
    decompOut := fun _ _ => DecompOutcome.okD,
    convOut := fun _ _ => ConvOutcome.okC }

/-- The same environment with the hour listing failing transiently. -/
def c2env : DoyEnv := { c1env with hourListing := Except.error "timeout" }

/-- The same environment with every download failing. -/
def c3env : DoyEnv := { c1env with download := fun _ _ => false }

/-- The populated local tree left by a successful extraction run. -/
def c1fs : List String := ["downloads/S/2024/001/00/A.crx"]

/-! ## Lemmas about the range parser -/

lemma splitOnChar_ne_nil (c : Char) (l : List Char) : splitOnChar c l ≠ [] := by
  induction l with
  | nil => simp [splitOnChar]
  | cons x xs ih =>
    by_cases hx : x = c
    · simp [splitOnChar, hx]
    · simp only [splitOnChar, if_neg hx]
      cases h : splitOnChar c xs with
      | nil => exact absurd h ih
      | cons y ys => simp

lemma two_le_splitOnChar_length (c : Char) (l : List Char) (hc : c ∈ l) :
    2 ≤ (splitOnChar c l).length := by
  induction l with
  | nil => cases hc
  | cons x xs ih =>
    by_cases hx : x = c
    · simp only [splitOnChar, if_pos hx]
      cases h : splitOnChar c xs with
      | nil => exact absurd h (splitOnChar_ne_nil c xs)
      | cons y ys => simp
    · rcases List.mem_cons.mp hc with h1 | h2
      · exact absurd h1.symm hx
      · have ihh := ih h2
        simp only [splitOnChar, if_neg hx]
        cases h : splitOnChar c xs with
        | nil => exact absurd h (splitOnChar_ne_nil c xs)
        | cons y ys =>
          rw [h] at ihh
          simpa using ihh

lemma pySplitDash_length (s : String) :
    (pySplitDash s).length = (splitOnChar '-' s.data).length := by
  simp [pySplitDash]

lemma parsedRange_none_iff (value : String) :
    parsedRange value = none ↔
      2 < (tokensOf value).length ∨ ∃ t ∈ tokensOf value, pyInt? t = none := by
  unfold parsedRange tokensOf
  by_cases hd : '-' ∈ value.data
  · simp only [if_pos hd]
    rcases h : pySplitDash value with _ | ⟨a, rest⟩
    · exact absurd (by simpa [pySplitDash] using congrArg List.length h)
        (by simpa using (splitOnChar_ne_nil '-' value.data))
    · rcases rest with _ | ⟨b, rest2⟩
      · have h2 := two_le_splitOnChar_length '-' value.data hd
        rw [← pySplitDash_length, h] at h2
        simp at h2
      · rcases rest2 with _ | ⟨c2, rest3⟩
        · rcases ha : pyInt? a with _ | va <;> rcases hb : pyInt? b with _ | vb <;>
            simp [h, ha, hb]
        · simp [h]
  · simp only [if_neg hd]
    rcases h : pyInt? value with _ | v <;> simp [h]

lemma intsFromTo_ne_nil {s e : Int} (h : s ≤ e) : intsFromTo s e ≠ [] := by
  intro hnil
  have hlen : (intsFromTo s e).length = (e + 1 - s).toNat := by
    rw [intsFromTo, List.length_map, List.length_range]
  rw [hnil, List.length_nil] at hlen
  omega

/-- C4 (amended).  The range parser returns the empty sequence exactly when
the input is empty, the input splits into more than two tokens around the
separator, a token is non-numeric, start > end, start < min, or end > max;
otherwise it returns every integer in [start, end] inclusive formatted with
leading zeros to the field width (3 digits for the DOY field, 2 otherwise),
in ascending order. -/
theorem validate_range_characterization (value : String) (mn mx : Int)
    (name : String) :
    (validate_range value mn mx name = [] ↔
      value = "" ∨ 2 < (tokensOf value).length ∨
      (∃ t ∈ tokensOf value, pyInt? t = none) ∨
      ∃ s e, parsedRange value = some (s, e) ∧ (s > e ∨ s < mn ∨ e > mx)) ∧
    (∀ s e, parsedRange value = some (s, e) → value ≠ "" →
      ¬(s > e ∨ s < mn ∨ e > mx) →
      validate_range value mn mx name =
        (intsFromTo s e).map (pyFormatD (if name = "DOY" then 3 else 2))) := by
  have hmain : ∀ s e, parsedRange value = some (s, e) → value ≠ "" →
      ¬(s > e ∨ s < mn ∨ e > mx) →
      validate_range value mn mx name =
        (intsFromTo s e).map (pyFormatD (if name = "DOY" then 3 else 2)) := by
    intro s e hp hv hcond
    have h1 : ¬ s > e := fun hc => hcond (Or.inl hc)
    have h2 : ¬(s < mn ∨ e > mx) := fun hc => hcond (Or.inr hc)
    simp only [validate_range, if_neg hv, hp, if_neg h1, if_neg h2]
    by_cases hn3 : name = "DOY"
    · rw [if_pos hn3, if_pos hn3]
    · rw [if_neg hn3, if_neg hn3]
  refine ⟨?_, hmain⟩
  by_cases hv : value = ""
  · have hval : validate_range value mn mx name = [] := by
      simp only [validate_range, if_pos hv]
    rw [hval]
    exact iff_of_true rfl (Or.inl hv)
  · rcases hp : parsedRange value with _ | ⟨s, e⟩
    · have hval : validate_range value mn mx name = [] := by
        simp only [validate_range, if_neg hv, hp]
      have hn := (parsedRange_none_iff value).mp hp
      rw [hval]
      refine iff_of_true rfl ?_
      rcases hn with h | h
      · exact Or.inr (Or.inl h)
      · exact Or.inr (Or.inr (Or.inl h))
    · have hnn : ¬(2 < (tokensOf value).length ∨
          ∃ t ∈ tokensOf value, pyInt? t = none) := by
        intro hcon
        have hnone := (parsedRange_none_iff value).mpr hcon
        rw [hp] at hnone
        exact Option.some_ne_none _ hnone
      by_cases h1 : s > e
      · have hval : validate_range value mn mx name = [] := by
          simp only [validate_range, if_neg hv, hp, if_pos h1]
        rw [hval]
        exact iff_of_true rfl
          (Or.inr (Or.inr (Or.inr ⟨s, e, rfl, Or.inl h1⟩)))
      · by_cases h2 : s < mn ∨ e > mx
        · have hval : validate_range value mn mx name = [] := by
            simp only [validate_range, if_neg hv, hp, if_neg h1, if_pos h2]
          rw [hval]
          exact iff_of_true rfl
            (Or.inr (Or.inr (Or.inr ⟨s, e, rfl, Or.inr h2⟩)))
        · have hval := hmain s e hp hv (fun hc => Or.elim hc h1 h2)
          rw [hval]
          have hne : intsFromTo s e ≠ [] := intsFromTo_ne_nil (by omega)
          constructor
          · intro hemp
            exact absurd (List.map_eq_nil_iff.mp hemp) hne
          · intro hrhs
            exfalso
            rcases hrhs with h | h | h | ⟨sx, ex, hpx, hcond⟩
            · exact hv h
            · exact hnn (Or.inl h)
            · exact hnn (Or.inr h)
            · have hpr := Option.some.inj hpx
              have hs : s = sx := congrArg Prod.fst hpr
              have he : e = ex := congrArg Prod.snd hpr
              subst hs
              subst he
              rcases hcond with h | h
              · exact h1 h
              · exact h2 h

/-- C4 counterexample.  On input `"1-2-3"` (with bounds 1 and 366) the parser
returns the empty sequence although the input is nonempty, every token is
numeric, and the tokens 1, 2, 3 are ascending and within bounds — none of the
emptiness conditions listed by the claim holds, refuting its "exactly when". -/
theorem validate_range_claim_cex :
    validate_range "1-2-3" 1 366 "DOY" = [] ∧ ("1-2-3" : String) ≠ "" ∧
    tokensOf "1-2-3" = ["1", "2", "3"] ∧
    (∀ t ∈ tokensOf "1-2-3", pyInt? t ≠ none) ∧
    pyInt? "1" = some 1 ∧ pyInt? "3" = some 3 := by decide

/-- Witness for C4: the characterization applied to the concrete inputs
`"1-3"` (success) and `"10-5"` (start > end). -/
theorem validate_range_characterization_witness :
    validate_range "1-3" 1 366 "DOY" =
      (intsFromTo 1 3).map (pyFormatD (if ("DOY" : String) = "DOY" then 3 else 2)) ∧
    validate_range "10-5" 1 366 "DOY" = [] := by
  constructor
  · exact (validate_range_characterization "1-3" 1 366 "DOY").2 1 3 (by decide)
      (by decide) (by decide)
  · exact (validate_range_characterization "10-5" 1 366 "DOY").1.mpr
      (Or.inr (Or.inr (Or.inr ⟨10, 5, by decide, by decide⟩)))

/-! ## Connect and close -/

lemma quit_not_mem_connect_tail (h k : Nat) :
    SAct.quit h ∉ SAct.openH h :: (connSteps h).take k := by
  intro hm
  rcases List.mem_cons.mp hm with h1 | h2
  · simp at h1
  · have h3 := List.take_subset k (connSteps h) h2
    simp [connSteps] at h3

lemma closeAct_not_mem_connect_tail (h k : Nat) :
    SAct.closeH h ∉ SAct.openH h :: (connSteps h).take k := by
  intro hm
  rcases List.mem_cons.mp hm with h1 | h2
  · simp at h1
  · have h3 := List.take_subset k (connSteps h) h2
    simp [connSteps] at h3

/-- C7 counterexample.  With a fresh (disconnected) client, the handshake
opens handle 7 and the next setup step raises: `connect()` returns the error
result with the session disconnected, but the trace contains no termination
of handle 7 — the partial handle is dropped, not closed, refuting "it closes
any partial connection handle". -/
theorem connect_close_partial_cex :
    connectOp (ConnectOutcome.failAt 7 1) ⟨none⟩ =
      (⟨none⟩, false, [SAct.openH 7, SAct.connTo 7]) ∧
    ¬ closesH (connectOp (ConnectOutcome.failAt 7 1) ⟨none⟩).2.2 7 := by
  refine ⟨rfl, ?_⟩
  intro hcl
  rcases hcl with hm | hm <;> revert hm <;> decide

/-- C7 (amended).  When `connect()` fails at any step it transitions the
session to Disconnected and returns an error result rather than raising, but
it discards any partially set-up connection handle without closing it: no
termination of the partial handle appears in the trace. -/
theorem connect_failure_behavior (out : ConnectOutcome) (s : Session)
    (hfail : ∀ h, out ≠ ConnectOutcome.okConn h) :
    (connectOp out s).1.ftp = none ∧ (connectOp out s).2.1 = false ∧
    ∀ h k, out = ConnectOutcome.failAt h k → s.ftp ≠ some h →
      ¬ closesH (connectOp out s).2.2 h := by
  obtain ⟨ftp⟩ := s
  cases out with
  | okConn h => exact absurd rfl (hfail h)
  | failCtor =>
    refine ⟨rfl, rfl, ?_⟩
    intro h k heq
    exact absurd heq (by simp)
  | failAt h0 k0 =>
    refine ⟨rfl, rfl, ?_⟩
    intro h k heq hne hcl
    have hh : h0 = h := by
      injection heq with hh hk
    subst hh
    cases ftp with
    | none =>
      have htr : (connectOp (ConnectOutcome.failAt h0 k0) ⟨none⟩).2.2 =
          SAct.openH h0 :: (connSteps h0).take k0 := rfl
      rw [htr] at hcl
      rcases hcl with hm | hm
      · exact quit_not_mem_connect_tail h0 k0 hm
      · exact closeAct_not_mem_connect_tail h0 k0 hm
    | some h1 =>
      have hne1 : h1 ≠ h0 := by
        intro hx
        exact hne (by rw [hx])
      have htr : (connectOp (ConnectOutcome.failAt h0 k0) ⟨some h1⟩).2.2 =
          SAct.quit h1 :: SAct.openH h0 :: (connSteps h0).take k0 := rfl
      rw [htr] at hcl
      rcases hcl with hm | hm
      · rcases List.mem_cons.mp hm with h2 | h2
        · exact hne1 (by injection h2 with h4; exact h4.symm)
        · exact quit_not_mem_connect_tail h0 k0 h2
      · rcases List.mem_cons.mp hm with h2 | h2
        · simp at h2
        · exact closeAct_not_mem_connect_tail h0 k0 h2

/-- Witness for C7: the amended behavior at the concrete failing outcome
(handle 7 opened, failure at the next step) on a fresh client. -/
theorem connect_failure_behavior_witness :
    (connectOp (ConnectOutcome.failAt 7 1) ⟨none⟩).1.ftp = none ∧
    (connectOp (ConnectOutcome.failAt 7 1) ⟨none⟩).2.1 = false ∧
    ¬ closesH (connectOp (ConnectOutcome.failAt 7 1) ⟨none⟩).2.2 7 := by
  obtain ⟨a, b, c⟩ := connect_failure_behavior (ConnectOutcome.failAt 7 1) ⟨none⟩
    (by intro h heq; exact ConnectOutcome.noConfusion heq)
  exact ⟨a, b, c 7 1 rfl (by intro hx; exact Option.noConfusion hx)⟩

/-- C10 (confirmed).  `connect()` holds at most one handle: when a connection
is already held, the trace begins with the polite termination of the old
handle, before any new handle is opened; and after the call the internal
handle is non-null exactly when the call reported success. -/
theorem connect_single_handle_invariant (out : ConnectOutcome) (s : Session) :
    ((connectOp out s).1.ftp).isSome = (connectOp out s).2.1 ∧
    ∀ h0, s.ftp = some h0 →
      ∃ rest, (connectOp out s).2.2 = SAct.quit h0 :: rest := by
  obtain ⟨ftp⟩ := s
  cases ftp with
  | none =>
    cases out <;> exact ⟨rfl, fun h0 hh => Option.noConfusion hh⟩
  | some h1 =>
    cases out <;>
      refine ⟨rfl, ?_⟩ <;>
      · intro h0 hh
        rw [← Option.some.inj hh]
        exact ⟨_, rfl⟩

/-- Witness for C10: a successful reconnect over an existing handle 5 starts
by quitting handle 5. -/
theorem connect_single_handle_invariant_witness :
    ∃ rest, (connectOp (ConnectOutcome.okConn 3) ⟨some 5⟩).2.2 =
      SAct.quit 5 :: rest :=
  (connect_single_handle_invariant (ConnectOutcome.okConn 3) ⟨some 5⟩).2 5 rfl

/-- C8 (confirmed).  `close()` sends the polite termination exactly when a
connection is present, swallows any termination error (the result is `ok` for
either scripted quit outcome), unconditionally clears the connection state,
and a second `close()` performs nothing and does not raise. -/
theorem close_idempotent (qk qk2 : Bool) (s : Session) :
    ∃ tr, closeOp qk s = Except.ok ((⟨none⟩ : Session), tr) ∧
      (s.ftp = none → tr = []) ∧
      (∀ h, s.ftp = some h → tr = [SAct.quit h]) ∧
      closeOp qk2 ⟨none⟩ = Except.ok ((⟨none⟩ : Session), []) := by
  obtain ⟨ftp⟩ := s
  cases ftp with
  | none =>
    exact ⟨[], rfl, fun _ => rfl, fun h hh => Option.noConfusion hh, rfl⟩
  | some h1 =>
    cases qk <;>
    · refine ⟨[SAct.quit h1], rfl, ?_, ?_, rfl⟩
      · intro hx
        exact Option.noConfusion hx
      · intro h hh
        rw [Option.some.inj hh]

/-- Witness for C8: closing a connected session whose quit raises still
returns `ok` with the state cleared, and a second close is a no-op. -/
theorem close_idempotent_witness :
    closeOp false ⟨some 5⟩ = Except.ok ((⟨none⟩ : Session), [SAct.quit 5]) ∧
    closeOp true ⟨none⟩ = Except.ok ((⟨none⟩ : Session), []) := by
  obtain ⟨tr, h1, _, h3, h4⟩ := close_idempotent false true ⟨some 5⟩
  rw [h3 5 rfl] at h1
  exact ⟨h1, h4⟩

/-! ## Lemmas about the bounded-retry loops -/

lemma lcf_attempts_le (attempt : Nat → LAttempt) (recon : Nat → Option Nat)
    (filt : Option String) :
    ∀ fuel retryCount made rc ftp,
      (lcfLoop attempt recon filt retryCount made rc ftp fuel).2 ≤ made + fuel := by
  intro fuel
  induction fuel with
  | zero =>
    intro retryCount made rc ftp
    simp [lcfLoop]
  | succ n ih =>
    intro retryCount made rc ftp
    by_cases h3 : 3 ≤ retryCount
    · simp [lcfLoop, h3]
    · rcases ftp with _ | h
      · rcases hr : recon rc with _ | h2
        · simp [lcfLoop, h3, hr]
        · rcases ha : attempt made with m | files
          · by_cases h4 : retryCount + 1 < 3
            · rcases hr2 : recon (rc + 1) with _ | h5
              · simp [lcfLoop, h3, hr, ha, h4, hr2] <;> omega
              · have hih := ih (retryCount + 1) (made + 1) (rc + 1 + 1) (some h5)
                simp [lcfLoop, h3, hr, ha, h4, hr2] <;> omega
            · simp [lcfLoop, h3, hr, ha, h4] <;> omega
          · simp [lcfLoop, h3, hr, ha] <;> omega
      · rcases ha : attempt made with m | files
        · by_cases h4 : retryCount + 1 < 3
          · rcases hr2 : recon rc with _ | h5
            · simp [lcfLoop, h3, ha, h4, hr2] <;> omega
            · have hih := ih (retryCount + 1) (made + 1) (rc + 1) (some h5)
              simp [lcfLoop, h3, ha, h4, hr2] <;> omega
          · simp [lcfLoop, h3, ha, h4] <;> omega
        · simp [lcfLoop, h3, ha] <;> omega

lemma dl_attempts_le (attempt : Nat → DAttempt) (recon : Nat → Option Nat) :
    ∀ fuel retryCount made rc ftp fe,
      (dlLoop attempt recon retryCount made rc ftp fe fuel).2.2 ≤ made + fuel := by
  intro fuel
  induction fuel with
  | zero =>
    intro retryCount made rc ftp fe
    simp [dlLoop]
  | succ n ih =>
    intro retryCount made rc ftp fe
    by_cases h3 : 3 ≤ retryCount
    · simp [dlLoop, h3]
    · rcases ftp with _ | h
      · rcases hr : recon rc with _ | h2
        · simp [dlLoop, h3, hr]
        · rcases ha : attempt made with _ | _ | _
          · by_cases h4 : retryCount + 1 < 3
            · rcases hr2 : recon (rc + 1) with _ | h5
              · simp [dlLoop, h3, hr, ha, h4, hr2] <;> omega
              · have hih := ih (retryCount + 1) (made + 1) (rc + 1 + 1) (some h5) false
                simp [dlLoop, h3, hr, ha, h4, hr2] <;> omega
            · simp [dlLoop, h3, hr, ha, h4] <;> omega
          · by_cases h4 : retryCount + 1 < 3
            · rcases hr2 : recon (rc + 1) with _ | h5
              · simp [dlLoop, h3, hr, ha, h4, hr2] <;> omega
              · have hih := ih (retryCount + 1) (made + 1) (rc + 1 + 1) (some h5) false
                simp [dlLoop, h3, hr, ha, h4, hr2] <;> omega
            · simp [dlLoop, h3, hr, ha, h4] <;> omega
          · simp [dlLoop, h3, hr, ha] <;> omega
      · rcases ha : attempt made with _ | _ | _
        · by_cases h4 : retryCount + 1 < 3
          · rcases hr2 : recon rc with _ | h5
            · simp [dlLoop, h3, ha, h4, hr2] <;> omega
            · have hih := ih (retryCount + 1) (made + 1) (rc + 1) (some h5) false
              simp [dlLoop, h3, ha, h4, hr2] <;> omega
          · simp [dlLoop, h3, ha, h4] <;> omega
        · by_cases h4 : retryCount + 1 < 3
          · rcases hr2 : recon rc with _ | h5
            · simp [dlLoop, h3, ha, h4, hr2] <;> omega
            · have hih := ih (retryCount + 1) (made + 1) (rc + 1) (some h5) false
              simp [dlLoop, h3, ha, h4, hr2] <;> omega
          · simp [dlLoop, h3, ha, h4] <;> omega
        · simp [dlLoop, h3, ha] <;> omega

lemma lcf_short_circuit (attempt : Nat → LAttempt) (recon : Nat → Option Nat)
    (filt : Option String) (v : List String)
    (hrecon : ∀ j, ∃ h, recon j = some h) :
    ∀ k fuel retryCount made rc ftp, k < fuel → retryCount + k < 3 →
      (∀ i, i < k → ∃ m, attempt (made + i) = LAttempt.fail m) →
      attempt (made + k) = LAttempt.ok v →
      lcfLoop attempt recon filt retryCount made rc ftp fuel =
        (filterCrx v filt, made + k + 1) := by
  intro k
  induction k with
  | zero =>
    intro fuel retryCount made rc ftp hkf hk3 hfail hsucc
    rcases fuel with _ | n
    · omega
    have h3 : ¬ 3 ≤ retryCount := by omega
    have hs : attempt made = LAttempt.ok v := by simpa using hsucc
    rcases ftp with _ | h
    · obtain ⟨h2, hr⟩ := hrecon rc
      simp [lcfLoop, h3, hr, hs]
    · simp [lcfLoop, h3, hs]
  | succ kk ih =>
    intro fuel retryCount made rc ftp hkf hk3 hfail hsucc
    rcases fuel with _ | n
    · omega
    have h3 : ¬ 3 ≤ retryCount := by omega
    obtain ⟨m0, hf0⟩ := hfail 0 (by omega)
    have hf0' : attempt made = LAttempt.fail m0 := by simpa using hf0
    have h4 : retryCount + 1 < 3 := by omega
    have hshift : ∀ i, i < kk → ∃ m, attempt (made + 1 + i) = LAttempt.fail m := by
      intro i hi
      obtain ⟨m, hm⟩ := hfail (i + 1) (by omega)
      exact ⟨m, by rw [show made + 1 + i = made + (i + 1) by omega]; exact hm⟩
    have hsucc' : attempt (made + 1 + kk) = LAttempt.ok v := by
      rw [show made + 1 + kk = made + (kk + 1) by omega]
      exact hsucc
    rcases ftp with _ | h
    · obtain ⟨h2, hr⟩ := hrecon rc
      obtain ⟨h5, hr2⟩ := hrecon (rc + 1)
      have hrec := ih n (retryCount + 1) (made + 1) (rc + 1 + 1) (some h5)
        (by omega) (by omega) hshift hsucc'
      simp only [lcfLoop]
      rw [if_neg h3]
      simp only [hr, hf0', if_pos h4, hr2]
      rw [hrec]
      congr 1
      omega
    · obtain ⟨h5, hr2⟩ := hrecon rc
      have hrec := ih n (retryCount + 1) (made + 1) (rc + 1) (some h5)
        (by omega) (by omega) hshift hsucc'
      simp only [lcfLoop]
      rw [if_neg h3]
      simp only [hf0', if_pos h4, hr2]
      rw [hrec]
      congr 1
      omega

lemma dl_short_circuit (attempt : Nat → DAttempt) (recon : Nat → Option Nat)
    (hrecon : ∀ j, ∃ h, recon j = some h) :
    ∀ k fuel retryCount made rc ftp fe, k < fuel → retryCount + k < 3 →
      (∀ i, i < k → attempt (made + i) ≠ DAttempt.okD) →
      attempt (made + k) = DAttempt.okD →
      dlLoop attempt recon retryCount made rc ftp fe fuel =
        (true, true, made + k + 1) := by
  intro k
  induction k with
  | zero =>
    intro fuel retryCount made rc ftp fe hkf hk3 hfail hsucc
    rcases fuel with _ | n
    · omega
    have h3 : ¬ 3 ≤ retryCount := by omega
    have hs : attempt made = DAttempt.okD := by simpa using hsucc
    rcases ftp with _ | h
    · obtain ⟨h2, hr⟩ := hrecon rc
      simp [dlLoop, h3, hr, hs]
    · simp [dlLoop, h3, hs]
  | succ kk ih =>
    intro fuel retryCount made rc ftp fe hkf hk3 hfail hsucc
    rcases fuel with _ | n
    · omega
    have h3 : ¬ 3 ≤ retryCount := by omega
    have hf0 := hfail 0 (by omega)
    have hf0' : attempt made ≠ DAttempt.okD := by simpa using hf0
    have h4 : retryCount + 1 < 3 := by omega
    have hshift : ∀ i, i < kk → attempt (made + 1 + i) ≠ DAttempt.okD := by
      intro i hi
      have hm := hfail (i + 1) (by omega)
      rw [show made + 1 + i = made + (i + 1) by omega]
      exact hm
    have hsucc' : attempt (made + 1 + kk) = DAttempt.okD := by
      rw [show made + 1 + kk = made + (kk + 1) by omega]
      exact hsucc
    rcases ha : attempt made with _ | _ | _
    case okD => exact absurd ha hf0'
    all_goals
      rcases ftp with _ | h
      case none =>
        obtain ⟨h2, hr⟩ := hrecon rc
        obtain ⟨h5, hr2⟩ := hrecon (rc + 1)
        have hrec := ih n (retryCount + 1) (made + 1) (rc + 1 + 1) (some h5) false
          (by omega) (by omega) hshift hsucc'
        simp only [dlLoop]
        rw [if_neg h3]
        simp only [hr, ha, if_pos h4, hr2]
        rw [hrec]
        have harith : made + 1 + kk + 1 = made + (kk + 1) + 1 := by omega
        rw [harith]
      case some =>
        obtain ⟨h5, hr2⟩ := hrecon rc
        have hrec := ih n (retryCount + 1) (made + 1) (rc + 1) (some h5) false
          (by omega) (by omega) hshift hsucc'
        simp only [dlLoop]
        rw [if_neg h3]
        simp only [ha, if_pos h4, hr2]
        rw [hrec]
        have harith : made + 1 + kk + 1 = made + (kk + 1) + 1 := by omega
        rw [harith]

lemma lcf_all_fail (attempt : Nat → LAttempt) (recon : Nat → Option Nat)
    (filt : Option String)
    (hfail : ∀ i, ∃ m, attempt i = LAttempt.fail m) :
    ∀ fuel retryCount made rc ftp,
      (lcfLoop attempt recon filt retryCount made rc ftp fuel).1 = [] := by
  intro fuel
  induction fuel with
  | zero =>
    intro retryCount made rc ftp
    simp [lcfLoop]
  | succ n ih =>
    intro retryCount made rc ftp
    by_cases h3 : 3 ≤ retryCount
    · simp [lcfLoop, h3]
    · obtain ⟨m, hm⟩ := hfail made
      rcases ftp with _ | h
      · rcases hr : recon rc with _ | h2
        · simp [lcfLoop, h3, hr]
        · by_cases h4 : retryCount + 1 < 3
          · rcases hr2 : recon (rc + 1) with _ | h5
            · simp [lcfLoop, h3, hr, hm, h4, hr2]
            · simp [lcfLoop, h3, hr, hm, h4, hr2, ih]
          · simp [lcfLoop, h3, hr, hm, h4]
      · by_cases h4 : retryCount + 1 < 3
        · rcases hr2 : recon rc with _ | h5
          · simp [lcfLoop, h3, hm, h4, hr2]
          · simp [lcfLoop, h3, hm, h4, hr2, ih]
        · simp [lcfLoop, h3, hm, h4]

lemma dl_all_fail (attempt : Nat → DAttempt) (recon : Nat → Option Nat)
    (hfail : ∀ i, attempt i ≠ DAttempt.okD) :
    ∀ fuel retryCount made rc ftp fe,
      (dlLoop attempt recon retryCount made rc ftp fe fuel).1 = false := by
  intro fuel
  induction fuel with
  | zero =>
    intro retryCount made rc ftp fe
    simp [dlLoop]
  | succ n ih =>
    intro retryCount made rc ftp fe
    by_cases h3 : 3 ≤ retryCount
    · simp [dlLoop, h3]
    · rcases ha : attempt made with _ | _ | _
      on_goal 3 => exact absurd ha (hfail made)
      all_goals
        rcases ftp with _ | h
        · rcases hr : recon rc with _ | h2
          · simp [dlLoop, h3, hr]
          · by_cases h4 : retryCount + 1 < 3
            · rcases hr2 : recon (rc + 1) with _ | h5
              · simp [dlLoop, h3, hr, ha, h4, hr2]
              · simp [dlLoop, h3, hr, ha, h4, hr2, ih]
            · simp [dlLoop, h3, hr, ha, h4]
        · by_cases h4 : retryCount + 1 < 3
          · rcases hr2 : recon rc with _ | h5
            · simp [dlLoop, h3, ha, h4, hr2]
            · simp [dlLoop, h3, ha, h4, hr2, ih]
          · simp [dlLoop, h3, ha, h4]

lemma dl_file_invariant (attempt : Nat → DAttempt) (recon : Nat → Option Nat) :
    ∀ fuel retryCount made rc ftp fe,
      ((dlLoop attempt recon retryCount made rc ftp fe fuel).1 = false →
        (dlLoop attempt recon retryCount made rc ftp fe fuel).2.1 = true →
        fe = true ∧
          (dlLoop attempt recon retryCount made rc ftp fe fuel).2.2 = made) ∧
      ((dlLoop attempt recon retryCount made rc ftp fe fuel).1 = true →
        (dlLoop attempt recon retryCount made rc ftp fe fuel).2.1 = true) := by
  intro fuel
  induction fuel with
  | zero =>
    intro retryCount made rc ftp fe
    simp [dlLoop]
  | succ n ih =>
    intro retryCount made rc ftp fe
    by_cases h3 : 3 ≤ retryCount
    · simp [dlLoop, h3]
    · rcases ha : attempt made with _ | _ | _
      on_goal 3 =>
        rcases ftp with _ | h
        · rcases hr : recon rc with _ | h2
          · simp [dlLoop, h3, hr]
          · simp [dlLoop, h3, hr, ha]
        · simp [dlLoop, h3, ha]
      all_goals
        rcases ftp with _ | h
        · rcases hr : recon rc with _ | h2
          · simp [dlLoop, h3, hr]
          · by_cases h4 : retryCount + 1 < 3
            · rcases hr2 : recon (rc + 1) with _ | h5
              · simp [dlLoop, h3, hr, ha, h4, hr2]
              · have hih := ih (retryCount + 1) (made + 1) (rc + 1 + 1) (some h5) false
                simp only [dlLoop, if_neg h3, hr, ha, if_pos h4, hr2]
                refine ⟨?_, hih.2⟩
                intro hf ht
                have hcon := (hih.1 hf ht).1
                exact absurd hcon (by simp)
            · simp [dlLoop, h3, hr, ha, h4]
        · by_cases h4 : retryCount + 1 < 3
          · rcases hr2 : recon rc with _ | h5
            · simp [dlLoop, h3, ha, h4, hr2]
            · have hih := ih (retryCount + 1) (made + 1) (rc + 1) (some h5) false
              simp only [dlLoop, if_neg h3, ha, if_pos h4, hr2]
              refine ⟨?_, hih.2⟩
              intro hf ht
              have hcon := (hih.1 hf ht).1
              exact absurd hcon (by simp)
          · simp [dlLoop, h3, ha, h4]

/-- C5 (confirmed).  Any sequence of transient failures results in at most 3
remote attempts for a single listing or download call; with all attempts
failing the listing degrades to the empty result and the download to a
reported failure; and a first success at attempt `k < 3` returns immediately
with exactly `k + 1` attempts made and the successful attempt's (filtered,
sorted) result. -/
theorem bounded_retry_attempts (s : Session) (attL : Nat → LAttempt)
    (attD : Nat → DAttempt) (recon : Nat → Option Nat) (filt : Option String)
    (pre : Bool) (k : Nat) (v : List String)
    (hrecon : ∀ j, ∃ h, recon j = some h) (hk : k < 3)
    (hfL : ∀ i, i < k → ∃ m, attL i = LAttempt.fail m)
    (hsL : attL k = LAttempt.ok v)
    (hfD : ∀ i, i < k → attD i ≠ DAttempt.okD)
    (hsD : attD k = DAttempt.okD) :
    (∀ (a : Nat → LAttempt) (r : Nat → Option Nat) (f : Option String),
      (list_crx_files s a r f).2 ≤ 3) ∧
    (∀ (a : Nat → DAttempt) (r : Nat → Option Nat) (p : Bool),
      (download_file s a r p).2.2 ≤ 3) ∧
    list_crx_files s attL recon filt = (filterCrx v filt, k + 1) ∧
    download_file s attD recon pre = (true, true, k + 1) ∧
    (∀ (a : Nat → LAttempt), (∀ i, ∃ m, a i = LAttempt.fail m) →
      (list_crx_files s a recon filt).1 = []) ∧
    (∀ (a : Nat → DAttempt), (∀ i, a i ≠ DAttempt.okD) →
      (download_file s a recon pre).1 = false) := by
  refine ⟨?_, ?_, ?_, ?_, ?_, ?_⟩
  · intro a r f
    simpa [list_crx_files] using lcf_attempts_le a r f 3 0 0 0 s.ftp
  · intro a r p
    simpa [download_file] using dl_attempts_le a r 3 0 0 0 s.ftp p
  · have h := lcf_short_circuit attL recon filt v hrecon k 3 0 0 0 s.ftp hk
      (by omega) (fun i hi => by simpa using hfL i hi) (by simpa using hsL)
    simpa [list_crx_files] using h
  · have h := dl_short_circuit attD recon hrecon k 3 0 0 0 s.ftp pre hk
      (by omega) (fun i hi => by simpa using hfD i hi) (by simpa using hsD)
    simpa [download_file] using h
  · intro a ha
    exact lcf_all_fail a recon filt ha 3 0 0 0 s.ftp
  · intro a ha
    exact dl_all_fail a recon ha 3 0 0 0 s.ftp pre

/-- Witness for C5: one transient failure followed by a success makes exactly
two attempts and returns the filtered, sorted listing / the downloaded file. -/
theorem bounded_retry_attempts_witness :
    list_crx_files ⟨some 1⟩ wAttL wRecon none = (["A.crx.gz", "B.crx.gz"], 2) ∧
    download_file ⟨some 1⟩ wAttD wRecon false = (true, true, 2) := by
  have h := bounded_retry_attempts ⟨some 1⟩ wAttL wAttD wRecon none false 1
    ["B.crx.gz", "A.crx.gz", "x.txt"]
    (fun j => ⟨j, rfl⟩) (by omega)
    (by
      intro i hi
      have hi0 : i = 0 := by omega
      subst hi0
      exact ⟨"net", rfl⟩)
    rfl
    (by
      intro i hi
      have hi0 : i = 0 := by omega
      subst hi0
      decide)
    rfl
  refine ⟨?_, ?_⟩
  · rw [h.2.2.1]
    decide
  · rw [h.2.2.2.1]

/-- C6 counterexample.  With a disconnected session, a failing reconnect and a
file already present at the destination, `download_file` returns failure after
zero attempts while a file still exists at the destination path — refuting
"when downloadFile returns failure no local file exists at the destination
path". -/
theorem download_failure_file_cex :
    download_file ⟨none⟩ (fun _ => DAttempt.okD) (fun _ => none) true =
      (false, true, 0) := rfl

/-- C6 (amended).  On every failed attempt the partially written local file is
deleted before any retry; consequently when `download_file` returns failure, a
file remains at the destination only if it was already there before the call
and the reconnect failed before any attempt was made — no file written by the
call itself survives.  A successful call leaves the downloaded file in
place. -/
theorem download_failure_leaves_no_file (s : Session) (attempt : Nat → DAttempt)
    (recon : Nat → Option Nat) (pre : Bool) :
    ((download_file s attempt recon pre).1 = false →
      (download_file s attempt recon pre).2.1 = true →
      pre = true ∧ (download_file s attempt recon pre).2.2 = 0) ∧
    ((download_file s attempt recon pre).1 = true →
      (download_file s attempt recon pre).2.1 = true) :=
  dl_file_invariant attempt recon 3 0 0 0 s.ftp pre

/-- Witness for C6: the amended statement applied at the concrete
zero-attempt failure scenario. -/
theorem download_failure_leaves_no_file_witness :
    (true : Bool) = true ∧
    (download_file ⟨none⟩ (fun _ => DAttempt.okD) (fun _ => none) true).2.2 = 0 :=
  (download_failure_leaves_no_file ⟨none⟩ (fun _ => DAttempt.okD)
    (fun _ => none) true).1 rfl rfl

/-! ## Materializer lemmas and C9 -/

lemma mem_insertP_of_mem (x p : String) (fs : List String) (h : p ∈ fs) :
    p ∈ insertP x fs := by
  unfold insertP
  split
  · exact h
  · exact List.mem_cons_of_mem _ h

lemma mem_insertP (x : String) (fs : List String) : x ∈ insertP x fs := by
  unfold insertP
  split
  · assumption
  · exact List.mem_cons_self _ _

/-- C9 (confirmed).  In `extract_and_convert` the original compressed file is
deleted only after the decompression fully succeeded; if decompression raises,
the compressed file is retained, and a partially written decompressed output
already created at the target path is left in place (no cleanup on the error
path); if the failure precedes the creation of the output, the filesystem is
untouched. -/
theorem materialize_gz_deleted_only_on_success (dOut : DecompOutcome)
    (cOut : ConvOutcome) (cv : Bool) (p : String) (fs : List String) :
    (p ∈ fs → p ∉ extract_and_convert dOut cOut cv p fs →
      dOut = DecompOutcome.okD) ∧
    (dOut ≠ DecompOutcome.okD → p ∈ fs →
      p ∈ extract_and_convert dOut cOut cv p fs) ∧
    (dOut = DecompOutcome.failMid →
      withSuffixEmpty p ∈ extract_and_convert dOut cOut cv p fs) ∧
    (dOut = DecompOutcome.failAtOpen →
      extract_and_convert dOut cOut cv p fs = fs) := by
  cases dOut with
  | failAtOpen =>
    refine ⟨?_, ?_, ?_, fun _ => rfl⟩
    · intro hin hout
      exact absurd hin hout
    · intro _ hin
      exact hin
    · intro h
      simp at h
  | failMid =>
    refine ⟨?_, ?_, ?_, ?_⟩
    · intro hin hout
      exact absurd (mem_insertP_of_mem _ _ _ hin) hout
    · intro _ hin
      exact mem_insertP_of_mem _ _ _ hin
    · intro _
      exact mem_insertP _ _
    · intro h
      simp at h
  | okD =>
    refine ⟨fun _ _ => rfl, ?_, ?_, ?_⟩
    · intro h
      exact absurd rfl h
    · intro h
      simp at h
    · intro h
      simp at h

/-- Witness for C9: a decompression failing midway on `d/A.crx.gz` retains the
compressed file and leaves the partial `d/A.crx` in place. -/
theorem materialize_gz_deleted_only_on_success_witness :
    "d/A.crx.gz" ∈ extract_and_convert DecompOutcome.failMid ConvOutcome.okC
      true "d/A.crx.gz" ["d/A.crx.gz"] ∧
    withSuffixEmpty "d/A.crx.gz" ∈ extract_and_convert DecompOutcome.failMid
      ConvOutcome.okC true "d/A.crx.gz" ["d/A.crx.gz"] := by
  have h := materialize_gz_deleted_only_on_success DecompOutcome.failMid
    ConvOutcome.okC true "d/A.crx.gz" ["d/A.crx.gz"]
  exact ⟨h.2.1 (by decide) (by decide), h.2.2.1 rfl⟩

/-! ## Orchestrator lemmas and C1-C3 -/

lemma getD_mem_of_lt (l : List String) (n : Nat) (h : n < l.length) :
    l.getD n "" ∈ l := by
  induction l generalizing n with
  | nil => simp at h
  | cons x xs ih =>
    cases n with
    | zero => simp [List.getD]
    | succ m =>
      rw [List.getD_cons_succ]
      exact List.mem_cons_of_mem _ (ih m (by simpa using h))

lemma countDownloads_append (a b : List OAct) :
    countDownloads (a ++ b) = countDownloads a + countDownloads b := by
  simp [countDownloads, List.filter_append]

lemma processFiles_all_skip (req : Request) (env : DoyEnv) (dd h : String) :
    ∀ files fs, (∀ f ∈ files, counterpartIn fs (dd ++ "/" ++ h ++ "/" ++ f)) →
      processFiles req env dd h files fs = (true, fs, []) := by
  intro files
  induction files with
  | nil =>
    intro fs _
    rfl
  | cons f rest ih =>
    intro fs hc
    have hf := hc f (List.mem_cons_self _ _)
    have htail : ∀ g ∈ rest, counterpartIn fs (dd ++ "/" ++ h ++ "/" ++ g) :=
      fun g hg => hc g (List.mem_cons_of_mem _ hg)
    by_cases hr : pyReplace (dd ++ "/" ++ h ++ "/" ++ f) ".crx.gz" ".rnx" ∈ fs
    · simp only [processFiles, if_pos hr]
      exact ih fs htail
    · have hcx : pyReplace (dd ++ "/" ++ h ++ "/" ++ f) ".gz" "" ∈ fs := by
        rcases hf with h1 | h1
        · exact absurd h1 hr
        · exact h1
      simp only [processFiles, if_neg hr, if_pos hcx]
      exact ih fs htail

lemma processHours_all_skip (req : Request) (env : DoyEnv) (dd : String) :
    ∀ hours fs,
      (∀ h2 f, f ∈ env.fileListing h2 →
        counterpartIn fs (dd ++ "/" ++ h2 ++ "/" ++ f)) →
      (processHours req env dd hours fs).2.1 = fs ∧
      (processHours req env dd hours fs).2.2 = [] := by
  intro hours
  induction hours with
  | nil =>
    intro fs _
    exact ⟨rfl, rfl⟩
  | cons h2 rest ih =>
    intro fs hc
    by_cases he : env.hourError h2
    · simp [processHours, he]
    · by_cases hf : env.fileListing h2 = []
      · simp only [processHours, if_neg he, if_pos hf]
        exact ih fs hc
      · have hpf := processFiles_all_skip req env dd h2 (env.fileListing h2) fs
          (fun f hf2 => hc h2 f hf2)
        have hrest := ih fs hc
        simp only [processHours, if_neg he, if_neg hf, hpf]
        simp [hrest.1, hrest.2]

lemma doyStep_no_download (req : Request) (env : DoyEnv) (st : OrchState)
    (hc : ∀ doy h f, doy ∈ req.doyList → f ∈ env.fileListing h →
      counterpartIn st.fs (downloadDirOf req doy ++ "/" ++ h ++ "/" ++ f)) :
    countDownloads (doyStep req env st).2 = 0 ∧
    (doyStep req env st).1.fs = st.fs := by
  by_cases hidx : st.doyIndex < req.doyList.length
  · by_cases hcn : env.connectOk = false
    · simp [doyStep, hidx, hcn, countDownloads]
    · by_cases hav : availableOf env = []
      · simp [doyStep, hidx, hcn, hav, countDownloads]
      · by_cases hvh : validHoursOf req env = []
        · simp [doyStep, hidx, hcn, hav, hvh, countDownloads]
        · have hdoy : req.doyList.getD st.doyIndex "" ∈ req.doyList :=
            getD_mem_of_lt _ _ hidx
          have hpass := processHours_all_skip req env
            (downloadDirOf req (req.doyList.getD st.doyIndex ""))
            (validHoursOf req env) st.fs
            (fun h2 f hf => hc _ h2 f hdoy hf)
          have hfs : (passOf req env (req.doyList.getD st.doyIndex "") st.fs).2.1
              = st.fs := hpass.1
          have htr : (passOf req env (req.doyList.getD st.doyIndex "") st.fs).2.2
              = [] := hpass.2
          have heq : req.doyList.getD st.doyIndex "" = req.doyList[st.doyIndex] := by
            simp [hidx]
          rw [heq] at hfs htr
          by_cases hr1 :
              (passOf req env req.doyList[st.doyIndex] st.fs).1 = true
          · simp [doyStep, hidx, hcn, hav, hvh, hr1, hfs, htr, countDownloads]
          · simp [doyStep, hidx, hcn, hav, hvh, hr1, hfs, htr, countDownloads]
  · simp [doyStep, hidx, countDownloads]

lemma runLoop_no_download (req : Request) (envs : Nat → DoyEnv) :
    ∀ fuel iter st,
      (∀ i doy h f, doy ∈ req.doyList → f ∈ (envs i).fileListing h →
        counterpartIn st.fs (downloadDirOf req doy ++ "/" ++ h ++ "/" ++ f)) →
      countDownloads (runLoop req envs fuel iter st).2 = 0 := by
  intro fuel
  induction fuel with
  | zero =>
    intro iter st _
    simp [runLoop, countDownloads]
  | succ n ih =>
    intro iter st hc
    by_cases hidx : st.doyIndex < req.doyList.length
    · have hstep := doyStep_no_download req (envs iter) st
        (fun doy h f hd hf => hc iter doy h f hd hf)
      have hih := ih (iter + 1) (doyStep req (envs iter) st).1
        (by
          intro i doy h f hd hf
          rw [hstep.2]
          exact hc i doy h f hd hf)
      simp only [runLoop, if_pos hidx]
      rw [countDownloads_append, hstep.1, hih]
    · simp [runLoop, hidx, countDownloads]

/-- C1 counterexample.  With extraction disabled, a first successful run
leaves only the `.crx.gz` file (no `.rnx` or `.crx` counterpart), so a second
run of the orchestrator over the same request and the resulting local tree
downloads the same file again: both runs perform one download, refuting
"downloads zero additional files the second time". -/
theorem second_run_downloads_again_cex :
    countDownloads (runLoop c1req (fun _ => c1env) 2 0 ⟨0, []⟩).2 = 1 ∧
    countDownloads (runLoop c1req (fun _ => c1env) 2 0
      ⟨0, (runLoop c1req (fun _ => c1env) 2 0 ⟨0, []⟩).1.fs⟩).2 = 1 := by
  constructor
  · rfl
  · rfl

/-- C1 (amended).  When the local output tree already contains, for every
candidate filename of every requested DOY, a converted (`.rnx`) or
decompressed (`.crx`) counterpart at the corresponding local path — as a first
successful run with extraction enabled leaves — a rerun of the orchestrator
downloads zero files: every candidate hits one of the two skip checks.
Without extraction the first run leaves only `.crx.gz` files and a second run
downloads them again. -/
theorem populated_tree_second_run_no_downloads (req : Request)
    (envs : Nat → DoyEnv) (fuel iter : Nat) (st : OrchState)
    (hc : ∀ i doy h f, doy ∈ req.doyList → f ∈ (envs i).fileListing h →
      pyReplace (downloadDirOf req doy ++ "/" ++ h ++ "/" ++ f)
          ".crx.gz" ".rnx" ∈ st.fs ∨
      pyReplace (downloadDirOf req doy ++ "/" ++ h ++ "/" ++ f)
          ".gz" "" ∈ st.fs) :
    countDownloads (runLoop req envs fuel iter st).2 = 0 :=
  runLoop_no_download req envs fuel iter st hc

/-- Witness for C1: over the tree left by an extraction run (the `.crx`
counterpart exists), the rerun downloads nothing. -/
theorem populated_tree_second_run_no_downloads_witness :
    countDownloads (runLoop c1req (fun _ => c1env) 2 0 ⟨0, c1fs⟩).2 = 0 := by
  apply populated_tree_second_run_no_downloads
  intro i doy h f hd hf
  have hd1 : doy = "001" := by simpa [c1req] using hd
  subst hd1
  by_cases hh : h = "00"
  · subst hh
    have hf1 : f = "A.crx.gz" := by simpa [c1env] using hf
    subst hf1
    right
    decide
  · exfalso
    simp [c1env, hh] at hf

/-- C2 counterexample.  A transient error in the hour-subfolder listing (the
remote `LIST` raises; `list_hour_subfolders` catches it and returns `[]`,
lines 49-51) makes the orchestrator advance past the requested DOY (line 298)
even though the archive was never observed to be empty — refuting "it never
advances past a requested DOY because of a transient network condition". -/
theorem advance_on_listing_error_cex :
    c2env.hourListing = Except.error "timeout" ∧ c2env.connectOk = true ∧
    (doyStep c1req c2env ⟨0, []⟩).1.doyIndex = 1 :=
  ⟨rfl, rfl, rfl⟩

/-- C2 (amended).  After a successful connect, the orchestrator advances past
the current DOY exactly when the hour listing comes back empty, the hour
intersection is empty, or the pass succeeds; however an empty hour listing may
itself be the result of a transient listing error (the code cannot
distinguish the two), so a transient network condition during the hour
listing does advance past a DOY.  Download failures and hour-processing
errors never advance. -/
theorem doy_advance_characterization (req : Request) (env : DoyEnv)
    (st : OrchState) (hidx : st.doyIndex < req.doyList.length) :
    (doyStep req env st).1.doyIndex = st.doyIndex + 1 ↔
      env.connectOk = true ∧ (availableOf env = [] ∨
        validHoursOf req env = [] ∨
        (passOf req env (req.doyList.getD st.doyIndex "") st.fs).1 = true) := by
  have heq : req.doyList.getD st.doyIndex "" = req.doyList[st.doyIndex] := by
    simp [hidx]
  rw [heq]
  by_cases hcn : env.connectOk = false
  · have hcn2 : ¬ env.connectOk = true := by
      rw [hcn]
      simp
    simp only [doyStep, if_pos hidx, if_pos hcn]
    constructor
    · intro h
      omega
    · intro h
      exact absurd h.1 hcn2
  · have hcn' : env.connectOk = true := by
      revert hcn
      cases env.connectOk <;> simp
    by_cases hav : availableOf env = []
    · simp only [doyStep, if_pos hidx, if_neg hcn, if_pos hav]
      constructor
      · intro _
        exact ⟨hcn', Or.inl hav⟩
      · intro _
        trivial
    · by_cases hvh : validHoursOf req env = []
      · simp only [doyStep, if_pos hidx, if_neg hcn, if_neg hav, if_pos hvh]
        constructor
        · intro _
          exact ⟨hcn', Or.inr (Or.inl hvh)⟩
        · intro _
          trivial
      · by_cases hr1 : (passOf req env req.doyList[st.doyIndex] st.fs).1 = true
        · simp only [doyStep, if_pos hidx, if_neg hcn, if_neg hav, if_neg hvh,
            heq, if_pos hr1]
          constructor
          · intro _
            exact ⟨hcn', Or.inr (Or.inr hr1)⟩
          · intro _
            trivial
        · simp only [doyStep, if_pos hidx, if_neg hcn, if_neg hav, if_neg hvh,
            heq, if_neg hr1]
          constructor
          · intro h
            omega
          · intro h
            rcases h.2 with h2 | h2 | h2
            · exact absurd h2 hav
            · exact absurd h2 hvh
            · exact absurd h2 hr1
  
/-- Witness for C2: the characterization applied at the listing-error
environment, showing the DOY index advancing. -/
theorem doy_advance_characterization_witness :
    (doyStep c1req c2env ⟨0, []⟩).1.doyIndex = 0 + 1 :=
  (doy_advance_characterization c1req c2env ⟨0, []⟩ (by decide)).mpr
    ⟨rfl, Or.inl rfl⟩

/-- C3 (confirmed).  Whenever the connected pass over a DOY fails (a download
failure or an unexpected error while processing hours), the orchestrator
closes the session, waits 30 time-units, and leaves the DOY index unchanged
so the same DOY is re-processed from the beginning (the trailing close is the
`finally` clause running on `continue`); and on every exit path from a
connected DOY's processing the trace contains a session close. -/
theorem doy_failure_retry (req : Request) (env : DoyEnv) (st : OrchState)
    (hidx : st.doyIndex < req.doyList.length)
    (hconn : env.connectOk = true) :
    OAct.closeS ∈ (doyStep req env st).2 ∧
    ((passOf req env (req.doyList.getD st.doyIndex "") st.fs).1 = false →
      (doyStep req env st).1.doyIndex = st.doyIndex ∧
      ∃ pre, (doyStep req env st).2 =
        pre ++ [OAct.closeS, OAct.sleepO 30, OAct.closeS]) := by
  have hcn : ¬ env.connectOk = false := by
    rw [hconn]
    simp
  have heq : req.doyList.getD st.doyIndex "" = req.doyList[st.doyIndex] := by
    simp [hidx]
  rw [heq]
  by_cases hav : availableOf env = []
  · simp only [doyStep, if_pos hidx, if_neg hcn, if_pos hav]
    refine ⟨by simp, ?_⟩
    intro hfail
    have hv : validHoursOf req env = [] := by
      unfold validHoursOf
      rw [hav]
      simp
    have hp : (passOf req env req.doyList[st.doyIndex] st.fs).1 = true := by
      unfold passOf
      rw [hv]
      rfl
    rw [hp] at hfail
    exact absurd hfail (by simp)
  · by_cases hvh : validHoursOf req env = []
    · simp only [doyStep, if_pos hidx, if_neg hcn, if_neg hav, if_pos hvh]
      refine ⟨by simp, ?_⟩
      intro hfail
      have hp : (passOf req env req.doyList[st.doyIndex] st.fs).1 = true := by
        unfold passOf
        rw [hvh]
        rfl
      rw [hp] at hfail
      exact absurd hfail (by simp)
    · by_cases hr1 : (passOf req env req.doyList[st.doyIndex] st.fs).1 = true
      · simp only [doyStep, if_pos hidx, if_neg hcn, if_neg hav, if_neg hvh,
          heq, if_pos hr1]
        refine ⟨by simp, ?_⟩
        intro hfail
        rw [hr1] at hfail
        exact absurd hfail (by simp)
      · simp only [doyStep, if_pos hidx, if_neg hcn, if_neg hav, if_neg hvh,
          heq, if_neg hr1]
        refine ⟨by simp, fun _ => ⟨trivial, ?_⟩⟩
        exact ⟨(passOf req env req.doyList[st.doyIndex] st.fs).2.2, rfl⟩

/-- Witness for C3: the all-downloads-fail environment leaves the DOY index
unchanged and the trace ends with close, sleep 30, close. -/
theorem doy_failure_retry_witness :
    OAct.closeS ∈ (doyStep c1req c3env ⟨0, []⟩).2 ∧
    (doyStep c1req c3env ⟨0, []⟩).1.doyIndex = 0 ∧
    ∃ pre, (doyStep c1req c3env ⟨0, []⟩).2 =
      pre ++ [OAct.closeS, OAct.sleepO 30, OAct.closeS] := by
  have h := doy_failure_retry c1req c3env ⟨0, []⟩ (by decide) rfl
  have h2 := h.2 (by decide)
  exact ⟨h.1, h2.1, h2.2⟩
